import Mathlib

/-!
Verification of the Blackjack rules engine in `src/app.py` (classes
`BlackjackGame` and the game-logic parts of `BlackjackWindow`).

Embedding conventions:
* A pydealer card is a rank/suit pair.  The Python code branches on the
  card's `value` string (`isdigit()`, `"Jack"`, `"Queen"`, `"King"`,
  `"Ace"`); the rank type below reflects those five branches, with
  `num n` standing for a numeral rank string (2..10 in a real deck).
* A pydealer `Stack` is a Lean `List Card`; dealing takes cards from the
  front of the list.
* The pydealer library itself is not part of the repository's sources,
  so its `Stack.deal` is modelled from the spec's Shoe contract (see
  `Shoe.deal` below).  The one-shot shuffle is modelled by quantifying
  theorems over an arbitrary permutation of the unshuffled shoe.
* Python exceptions become `Except GameError`.
-/

inductive Suit where
  | Spades | Hearts | Clubs | Diamonds
deriving DecidableEq, Repr

inductive Rank where
  | num (n : Nat)
  | Jack | Queen | King | Ace
deriving DecidableEq, Repr

structure Card where
  rank : Rank
  suit : Suit
deriving DecidableEq, Repr

/-- Error kinds of the spec's §7 that the embedding can surface. -/
inductive GameError where
  | InvalidArgument | Exhausted
deriving DecidableEq, Repr

/-- The `while value > 21 and aces:` loop of
`BlackjackGame.calculate_hand_value` (src/app.py:54-56): while the total
exceeds 21 and an ace is still counted as 11, subtract 10 and use up one
ace.  Recursion is on the ace count, which the loop decrements. -/
def softReduce : Nat → Nat → Nat
  | value, 0 => value
  | value, aces + 1 => if value > 21 then softReduce (value - 10) aces else value

/-- Embeds `BlackjackGame.calculate_hand_value` (src/app.py:42-57): a
single pass accumulates the running total and the number of aces counted
as 11 (numeral ranks at face value, Jack/Queen/King as 10, Ace as 11),
then the soft-ace reduction loop `softReduce` runs. -/
def calculate_hand_value (hand : List Card) : Nat :=
  let p := hand.foldl
    (fun (p : Nat × Nat) c =>
      match c.rank with
      | .num n => (p.1 + n, p.2)
      | .Jack => (p.1 + 10, p.2)
      | .Queen => (p.1 + 10, p.2)
      | .King => (p.1 + 10, p.2)
      | .Ace => (p.1 + 11, p.2 + 1))
    (0, 0)
  softReduce p.1 p.2

/-- Embeds `BlackjackGame.is_bust` (src/app.py:59-61). -/
def is_bust (hand : List Card) : Bool :=
  calculate_hand_value hand > 21

/-- The value of one card, as `calculate_hand_value`'s first loop counts
it before any soft-ace reduction. -/
def cardPoints (c : Card) : Nat :=
  match c.rank with
  | .num n => n
  | .Jack => 10
  | .Queen => 10
  | .King => 10
  | .Ace => 11

/-- Whether a card is an Ace (the only rank the valuation loop treats as
demotable). -/
def isAce (c : Card) : Bool :=
  match c.rank with
  | .Ace => true
  | _ => false

/-- The spec's wording of the valuation rule, restated independently of
the accumulator loop: sum the per-card values (numerals at face value,
Jack/Queen/King as 10, Ace as 11), count the aces, then demote soft aces
one at a time while the total exceeds 21. -/
def handValueSpec (hand : List Card) : Nat :=
  softReduce ((hand.map cardPoints).sum) (hand.countP isAce)

-- Convenient concrete cards.
def aceS : Card := ⟨.Ace, .Spades⟩
def aceH : Card := ⟨.Ace, .Hearts⟩
def kingS : Card := ⟨.King, .Spades⟩
def kingH : Card := ⟨.King, .Hearts⟩
def queenS : Card := ⟨.Queen, .Spades⟩
def queenH : Card := ⟨.Queen, .Hearts⟩

/- ### Core lemmas about the valuation loop -/

theorem calc_foldl_eq (hand : List Card) :
    ∀ v a, hand.foldl
      (fun (p : Nat × Nat) c =>
        match c.rank with
        | .num n => (p.1 + n, p.2)
        | .Jack => (p.1 + 10, p.2)
        | .Queen => (p.1 + 10, p.2)
        | .King => (p.1 + 10, p.2)
        | .Ace => (p.1 + 11, p.2 + 1))
      (v, a) = (v + (hand.map cardPoints).sum, a + hand.countP isAce) := by
  induction hand with
  | nil => simp
  | cons c t ih =>
    intro v a
    simp only [List.foldl_cons, List.map_cons, List.sum_cons, List.countP_cons]
    cases hr : c.rank <;>
      simp [hr, ih, cardPoints, isAce, Prod.mk.injEq] <;>
      omega

theorem handValue_eq (hand : List Card) :
    calculate_hand_value hand = handValueSpec hand := by
  simp only [calculate_hand_value, handValueSpec, calc_foldl_eq, Nat.zero_add]

/-- `softReduce` leaves the total above 21 exactly when even demoting
every ace would: the pre-reduction total exceeds `21 + 10 * aces`. -/
theorem softReduce_gt21 : ∀ a v, softReduce v a > 21 ↔ 21 + 10 * a < v := by
  intro a
  induction a with
  | zero => intro v; simp [softReduce]
  | succ a ih =>
    intro v
    simp only [softReduce]
    by_cases h : v > 21
    · simp only [if_pos h, ih]
      omega
    · simp only [if_neg h]
      omega

/- ### Shoe and game state -/

namespace Shoe

/-- Modelled from the spec: `pydealer.Stack.deal` is library code absent
from src/, so dealing follows the spec's Shoe contract — `deal n`
removes and returns the first `n` cards from the front of the shoe in
their current order, and fails with `Exhausted` if `n` exceeds the
remaining card count (never returning fewer cards). -/
def deal (n : Nat) (shoe : List Card) : Except GameError (List Card × List Card) :=
  if n ≤ shoe.length then .ok (shoe.take n, shoe.drop n) else .error .Exhausted

end Shoe

/-- A full 52-card deck, one card of each rank/suit pair
(`pydealer.Deck()` as used by `BlackjackGame.__init__`). -/
def fullDeck : List Card :=
  ([.num 2, .num 3, .num 4, .num 5, .num 6, .num 7, .num 8, .num 9, .num 10,
    .Jack, .Queen, .King, .Ace] : List Rank).flatMap
    fun r => ([.Spades, .Hearts, .Clubs, .Diamonds] : List Suit).map fun s => ⟨r, s⟩

/-- The shoe before shuffling: `num_decks` full decks concatenated
(the `for _ in range(num_decks)` loop of src/app.py:22-24). -/
def buildShoe (num_decks : Nat) : List Card :=
  (List.replicate num_decks fullDeck).flatten

/-- State of `BlackjackGame` (src/app.py:16-29). -/
structure BlackjackGame where
  num_decks : Nat
  num_players : Nat
  deck : List Card
  player_hands : List (List Card)
  dealer_hand : List Card
deriving DecidableEq, Repr

/-- Embeds `BlackjackGame.__init__` (src/app.py:17-29): builds the shoe
from `num_decks` full decks and gives every player and the dealer an
empty hand.  The one-shot `self.deck.shuffle()` is modelled by the
`deck` parameter; theorems about a real construction constrain it to be
a permutation of `buildShoe num_decks`.  Note the source performs no
validation of its arguments: `range(0)` simply yields no decks. -/
def BlackjackGame.init (num_decks num_players : Nat) (deck : List Card) : BlackjackGame :=
  { num_decks := num_decks
    num_players := num_players
    deck := deck
    player_hands := List.replicate num_players []
    dealer_hand := [] }

/-- Construction as seen by the caller: `__init__` (src/app.py:17-29)
contains no `raise` and no argument check, so it always succeeds. -/
def BlackjackGame.initE (num_decks num_players : Nat) (deck : List Card) :
    Except GameError BlackjackGame :=
  .ok (BlackjackGame.init num_decks num_players deck)

/-- Embeds `BlackjackGame.hit` (src/app.py:37-40): deal one card from
the shoe and append it to the given hand; returns the new shoe and the
new hand. -/
def hit (shoe : List Card) (hand : List Card) :
    Except GameError (List Card × List Card) :=
  match Shoe.deal 1 shoe with
  | .ok (cs, shoe') => .ok (shoe', hand ++ cs)
  | .error e => .error e

/-- The `for player_hand in self.player_hands` loop of
`deal_initial_hands` (src/app.py:33-34): deal two cards to each player
hand in order, threading the shoe through. -/
def dealToHands : List Card → List (List Card) →
    Except GameError (List Card × List (List Card))
  | shoe, [] => .ok (shoe, [])
  | shoe, h :: t =>
    match Shoe.deal 2 shoe with
    | .error e => .error e
    | .ok (cs, shoe') =>
      match dealToHands shoe' t with
      | .error e => .error e
      | .ok (shoe'', hs) => .ok (shoe'', (h ++ cs) :: hs)

/-- Embeds `BlackjackGame.deal_initial_hands` (src/app.py:31-35): two
cards to each player in player order, then two cards to the dealer. -/
def deal_initial_hands (g : BlackjackGame) : Except GameError BlackjackGame :=
  match dealToHands g.deck g.player_hands with
  | .error e => .error e
  | .ok (shoe', phs) =>
    match Shoe.deal 2 shoe' with
    | .error e => .error e
    | .ok (cs, shoe'') =>
      .ok { g with deck := shoe''
                   player_hands := phs
                   dealer_hand := g.dealer_hand ++ cs }

/-- Embeds `BlackjackGame.dealer_should_hit` (src/app.py:63-65) applied
to a dealer hand. -/
def dealer_should_hit (dealer_hand : List Card) : Bool :=
  calculate_hand_value dealer_hand < 17

/-- Round-level state held by `BlackjackWindow`: the game plus the turn
cursor and the dealer-reveal flag (src/app.py:75-76, 130-133). -/
structure RoundState where
  shoe : List Card
  player_hands : List (List Card)
  dealer_hand : List Card
  current_player_index : Nat
  show_dealer_cards : Bool
deriving DecidableEq, Repr

/-- The `while self.game.dealer_should_hit(): self.game.hit(...)` loop
of `play_dealer_turn` (src/app.py:227-228).  Each iteration with value
below 17 deals one card via `hit` (`Shoe.deal 1` succeeds exactly on a
non-empty shoe, yielding its head); an empty shoe makes `hit` fail with
`Exhausted`.  Recursion is on the shrinking shoe. -/
def dealerLoop : List Card → List Card → Except GameError (List Card × List Card)
  | shoe, hand =>
    if dealer_should_hit hand then
      match shoe with
      | [] => .error .Exhausted
      | c :: rest => dealerLoop rest (hand ++ [c])
    else .ok (shoe, hand)

/-- Embeds `BlackjackWindow.play_dealer_turn` (src/app.py:224-230):
first set `show_dealer_cards` to true, then run the dealer hit loop. -/
def play_dealer_turn (s : RoundState) : Except GameError RoundState :=
  let s1 := { s with show_dealer_cards := true }
  match dealerLoop s1.shoe s1.dealer_hand with
  | .ok (shoe', hand') => .ok { s1 with shoe := shoe', dealer_hand := hand' }
  | .error e => .error e

/-- The Blackjack scan of `reset_game` (src/app.py:136-141): for each
player hand in index order, if it values exactly 21 *and* that player
is the one currently acting, `next_player()` advances the cursor.
`cur` is `current_player_index`, `i` the loop index. -/
def bjScan : Nat → Nat → List (List Card) → Nat
  | cur, _, [] => cur
  | cur, i, h :: t =>
    if calculate_hand_value h = 21 then
      if i = cur then bjScan (cur + 1) (i + 1) t else bjScan cur (i + 1) t
    else bjScan cur (i + 1) t

/-- The `current_player_index` left by the Blackjack scan, starting from
the reset values `current_player_index = 0`, loop index `0`. -/
def blackjackCheck (hands : List (List Card)) : Nat :=
  bjScan 0 0 hands

/-- Per-player outcome tags shown by `show_results`. -/
inductive Outcome where
  | Busted | Won | Push | Lost
deriving DecidableEq, Repr

/-- Embeds the outcome computation of `BlackjackWindow.show_results`
(src/app.py:232-245): the dealer's value is computed once up front, then
each player in index order is tagged.  It reads hands only and mutates
nothing (the subsequent `reset_game()` call in the source discards the
whole round, as the spec's Resolved state prescribes). -/
def show_results (player_hands : List (List Card)) (dealer_hand : List Card) :
    List Outcome :=
  let dealer_value := calculate_hand_value dealer_hand
  player_hands.map fun hand =>
    let player_value := calculate_hand_value hand
    if is_bust hand then .Busted
    else if dealer_value > 21 || player_value > dealer_value then .Won
    else if player_value == dealer_value then .Push
    else .Lost

/-- The claim's wording of the outcome rule for one player, stated
directly on hand values. -/
def outcomeSpec (dealer_hand hand : List Card) : Outcome :=
  if calculate_hand_value hand > 21 then .Busted
  else if calculate_hand_value dealer_hand > 21 ∨
      calculate_hand_value dealer_hand < calculate_hand_value hand then .Won
  else if calculate_hand_value hand = calculate_hand_value dealer_hand then .Push
  else .Lost

/- ### Further helper lemmas -/

/-- A hand busts exactly when its pre-reduction total exceeds
`21 + 10 * aces`. -/
theorem bust_char (hand : List Card) :
    calculate_hand_value hand > 21 ↔
      21 + 10 * hand.countP isAce < (hand.map cardPoints).sum := by
  rw [handValue_eq]
  exact softReduce_gt21 _ _

theorem deal_of_le (n : Nat) (shoe : List Card) (h : n ≤ shoe.length) :
    Shoe.deal n shoe = .ok (shoe.take n, shoe.drop n) :=
  if_pos h

theorem deal_of_gt (n : Nat) (shoe : List Card) (h : shoe.length < n) :
    Shoe.deal n shoe = .error .Exhausted :=
  if_neg (by omega)

/- ### Claim theorems -/

/-- C1: `handValue` sums rank values (numerals at face value,
Jack/Queen/King as 10, Ace as 11) and then demotes one 11-counted Ace at
a time (subtracting 10) while the total exceeds 21; a single-Ace hand
values 11, two Aces value 12, King+Queen value 20 and Ace+King value
21. -/
theorem C1_hand_valuation :
    (∀ hand : List Card, calculate_hand_value hand = handValueSpec hand) ∧
    calculate_hand_value [aceS] = 11 ∧
    calculate_hand_value [aceS, aceH] = 12 ∧
    calculate_hand_value [kingS, queenS] = 20 ∧
    calculate_hand_value [aceS, kingS] = 21 :=
  ⟨handValue_eq, by decide, by decide, by decide, by decide⟩

/-- C10: the empty hand (every hand's state before the initial deal)
values 0 and is not bust. -/
theorem C10_empty_hand :
    calculate_hand_value [] = 0 ∧
    is_bust [] = false ∧
    ∀ d p deck, (BlackjackGame.init d p deck).player_hands = List.replicate p [] ∧
      (BlackjackGame.init d p deck).dealer_hand = [] :=
  ⟨rfl, rfl, fun _ _ _ => ⟨rfl, rfl⟩⟩

/-- C7: `is_bust` holds exactly when the hand value exceeds 21, and a
bust hand stays bust after appending any card, an Ace included. -/
theorem C7_bust_iff_and_monotone :
    ∀ (hand : List Card) (c : Card),
      (is_bust hand = true ↔ calculate_hand_value hand > 21) ∧
      (is_bust hand = true → is_bust (hand ++ [c]) = true) := by
  intro hand c
  constructor
  · simp [is_bust]
  · intro hb
    have h1 : 21 + 10 * hand.countP isAce < (hand.map cardPoints).sum :=
      (bust_char hand).1 (by simpa [is_bust] using hb)
    have h2 : 21 + 10 * (hand ++ [c]).countP isAce <
        ((hand ++ [c]).map cardPoints).sum := by
      simp only [List.map_append, List.sum_append, List.countP_append,
        List.map_cons, List.map_nil, List.sum_cons, List.sum_nil,
        List.countP_cons, List.countP_nil]
      cases hr : c.rank <;> simp [cardPoints, isAce, hr] <;> omega
    simpa [is_bust] using (bust_char (hand ++ [c])).2 h2

/-- Witness for C7 at a concrete bust hand: King+Queen+5 is bust and
appending an Ace keeps it bust. -/
theorem C7_witness :
    is_bust ([kingS, queenS, ⟨.num 5, .Spades⟩] ++ [aceS]) = true :=
  (C7_bust_iff_and_monotone [kingS, queenS, ⟨.num 5, .Spades⟩] aceS).2 (by decide)

/-- C6: `calculate_hand_value` depends only on the multiset of cards in
the hand (it is invariant under permutation), and the dealer's total is
computed from the dealer hand alone, unchanged by the dealer-revealed
flag. -/
theorem C6_value_pure :
    (∀ h1 h2 : List Card, h1.Perm h2 →
        calculate_hand_value h1 = calculate_hand_value h2) ∧
    (∀ (s : RoundState) (b : Bool),
        calculate_hand_value { s with show_dealer_cards := b }.dealer_hand =
          calculate_hand_value s.dealer_hand ∧
        dealer_should_hit { s with show_dealer_cards := b }.dealer_hand =
          dealer_should_hit s.dealer_hand) := by
  constructor
  · intro h1 h2 hp
    rw [handValue_eq, handValue_eq]
    unfold handValueSpec
    rw [(hp.map cardPoints).sum_eq, hp.countP_eq isAce]
  · intro s b
    exact ⟨rfl, rfl⟩

/-- Witness for C6: swapping the two cards of Ace+King leaves the value
unchanged. -/
theorem C6_witness :
    calculate_hand_value [kingS, aceS] = calculate_hand_value [aceS, kingS] :=
  C6_value_pure.1 _ _ (List.Perm.swap aceS kingS [])

/-- C5: `show_results` tags each player, in original index order, with
`Busted` if their hand is bust, else `Won` if the dealer is bust or the
player's value exceeds the dealer's, else `Push` on equal values, else
`Lost`; it is a pure function of the final hands (the dealer value is
let-bound once before the per-player loop).  The concrete scenario:
dealer 19 against players valuing 20, 19, 23 (bust) and 17 yields
`[Won, Push, Busted, Lost]`. -/
theorem C5_resolve :
    (∀ (phs : List (List Card)) (dh : List Card),
        show_results phs dh = phs.map (outcomeSpec dh)) ∧
    show_results
      [[kingS, queenS],
       [⟨.num 10, .Hearts⟩, ⟨.num 9, .Hearts⟩],
       [kingH, queenH, ⟨.num 3, .Spades⟩],
       [⟨.num 10, .Diamonds⟩, ⟨.num 7, .Diamonds⟩]]
      [⟨.num 10, .Spades⟩, ⟨.num 9, .Spades⟩] =
      [.Won, .Push, .Busted, .Lost] := by
  constructor
  · intro phs dh
    simp only [show_results]
    apply List.map_congr_left
    intro hand _
    simp only [outcomeSpec, is_bust, gt_iff_lt, Bool.or_eq_true,
      decide_eq_true_eq, beq_iff_eq]
  · decide

/-- C2 counterexample: with two players dealt King+Queen (20) and
Ace+King (21), the Blackjack scan of `reset_game` leaves
`current_player_index = 0`, so player 1 — whose initial hand values
exactly 21 but who is not the player currently acting — is not advanced
past, contradicting the claim that every such player is. -/
theorem C2_counterexample :
    deal_initial_hands
        ⟨2, 2, [kingS, queenS, aceS, kingH, ⟨.num 5, .Spades⟩, ⟨.num 6, .Spades⟩],
         [[], []], []⟩ =
      .ok ⟨2, 2, [], [[kingS, queenS], [aceS, kingH]],
           [⟨.num 5, .Spades⟩, ⟨.num 6, .Spades⟩]⟩ ∧
    calculate_hand_value [aceS, kingH] = 21 ∧
    blackjackCheck [[kingS, queenS], [aceS, kingH]] = 0 := by
  refine ⟨rfl, by decide, by decide⟩

/-- Once the loop index has passed the cursor, the Blackjack scan can
never advance the cursor again: the `i == self.current_player_index`
test fails for the rest of the loop. -/
theorem bjScan_stuck :
    ∀ (hands : List (List Card)) (cur i : Nat), cur < i →
      bjScan cur i hands = cur := by
  intro hands
  induction hands with
  | nil => intro cur i _; rfl
  | cons hd t ih =>
    intro cur i h
    simp only [bjScan]
    by_cases h1 : calculate_hand_value hd = 21
    · rw [if_pos h1, if_neg (by omega)]
      exact ih cur (i + 1) (by omega)
    · rw [if_neg h1]
      exact ih cur (i + 1) (by omega)

/-- While the cursor and the loop index agree, each 21-valued hand
advances both together; the first hand not valuing 21 leaves the cursor
behind for good. -/
theorem bjScan_diag :
    ∀ (hands : List (List Card)) (n : Nat),
      bjScan n n hands =
        n + (hands.takeWhile fun h => calculate_hand_value h == 21).length := by
  intro hands
  induction hands with
  | nil => intro n; simp [bjScan]
  | cons hd t ih =>
    intro n
    simp only [bjScan, List.takeWhile_cons]
    by_cases h1 : calculate_hand_value hd = 21
    · rw [if_pos h1, if_pos trivial, ih (n + 1)]
      simp [h1]
      omega
    · rw [if_neg h1, bjScan_stuck t n (n + 1) (by omega)]
      simp [h1]

/-- C2 amended: the Blackjack scan after the initial deal auto-advances
exactly the maximal consecutive run of 21-valued hands starting at
player 0 — the resulting `current_player_index` is the length of the
longest prefix of player hands valuing exactly 21; a 21-valued player
preceded by a player not on 21 is not advanced past. -/
theorem C2_amended_prefix_only :
    ∀ hands : List (List Card),
      blackjackCheck hands =
        (hands.takeWhile fun h => calculate_hand_value h == 21).length := by
  intro hands
  simpa [blackjackCheck] using bjScan_diag hands 0

/-- The dealer hit loop conserves cards (every card leaving the shoe
enters the dealer hand), never grows the shoe, stops only at a value of
at least 17, and fails only with `Exhausted`. -/
theorem dealerLoop_spec :
    ∀ (shoe hand : List Card),
      (∀ shoe' hand', dealerLoop shoe hand = .ok (shoe', hand') →
        hand'.length + shoe'.length = hand.length + shoe.length ∧
        shoe'.length ≤ shoe.length ∧
        ¬ calculate_hand_value hand' < 17) ∧
      (∀ e, dealerLoop shoe hand = .error e → e = .Exhausted) := by
  intro shoe
  induction shoe with
  | nil =>
    intro hand
    constructor
    · intro shoe' hand' h
      simp only [dealerLoop] at h
      by_cases hd : dealer_should_hit hand
      · rw [if_pos hd] at h
        exact absurd h (by simp)
      · rw [if_neg hd] at h
        simp only [Except.ok.injEq, Prod.mk.injEq] at h
        obtain ⟨rfl, rfl⟩ := h
        refine ⟨rfl, Nat.le_refl _, ?_⟩
        simpa [dealer_should_hit] using hd
    · intro e h
      simp only [dealerLoop] at h
      by_cases hd : dealer_should_hit hand
      · rw [if_pos hd] at h
        simpa using h.symm
      · rw [if_neg hd] at h
        exact absurd h (by simp)
  | cons c rest ih =>
    intro hand
    constructor
    · intro shoe' hand' h
      simp only [dealerLoop] at h
      by_cases hd : dealer_should_hit hand
      · rw [if_pos hd] at h
        obtain ⟨h1, h2, h3⟩ := (ih (hand ++ [c])).1 shoe' hand' h
        simp only [List.length_append, List.length_cons, List.length_nil] at h1
        refine ⟨?_, ?_, h3⟩ <;> simp only [List.length_cons] <;> omega
      · rw [if_neg hd] at h
        simp only [Except.ok.injEq, Prod.mk.injEq] at h
        obtain ⟨rfl, rfl⟩ := h
        refine ⟨rfl, Nat.le_refl _, ?_⟩
        simpa [dealer_should_hit] using hd
    · intro e h
      simp only [dealerLoop] at h
      by_cases hd : dealer_should_hit hand
      · rw [if_pos hd] at h
        exact (ih (hand ++ [c])).2 e h
      · rw [if_neg hd] at h
        exact absurd h (by simp)

/-- C3: `play_dealer_turn` sets the dealer-revealed flag and then hits
the dealer while the value is below 17.  On success the flag is true,
the number of hits is bounded by the shoe size (cards are conserved and
the shoe never grows), and the loop condition has become false; the
only possible failure is `Exhausted`, raised when the shoe runs out
while the dealer still wants a card — so the loop always terminates
within shoe-size steps. -/
theorem C3_dealer_turn :
    ∀ s : RoundState,
      (∀ s', play_dealer_turn s = .ok s' →
        s'.show_dealer_cards = true ∧
        s'.dealer_hand.length + s'.shoe.length =
          s.dealer_hand.length + s.shoe.length ∧
        s'.dealer_hand.length ≤ s.dealer_hand.length + s.shoe.length ∧
        ¬ calculate_hand_value s'.dealer_hand < 17) ∧
      (∀ e, play_dealer_turn s = .error e → e = .Exhausted) := by
  intro s
  constructor
  · intro s' h
    simp only [play_dealer_turn] at h
    cases hdl : dealerLoop s.shoe s.dealer_hand with
    | ok p =>
      obtain ⟨shoe', hand'⟩ := p
      rw [hdl] at h
      simp only [Except.ok.injEq] at h
      obtain ⟨h1, h2, h3⟩ := (dealerLoop_spec s.shoe s.dealer_hand).1 shoe' hand' hdl
      subst h
      exact ⟨rfl, by simpa using h1, by simp; omega, h3⟩
    | error e =>
      rw [hdl] at h
      exact absurd h (by simp)
  · intro e h
    simp only [play_dealer_turn] at h
    cases hdl : dealerLoop s.shoe s.dealer_hand with
    | ok p =>
      obtain ⟨shoe', hand'⟩ := p
      rw [hdl] at h
      exact absurd h (by simp)
    | error e' =>
      rw [hdl] at h
      simp only [Except.error.injEq] at h
      subst h
      exact (dealerLoop_spec s.shoe s.dealer_hand).2 _ hdl

/-- The round used by the C3 witness: dealer holds King+6 (16) and the
shoe holds a single 10. -/
def wRound : RoundState :=
  ⟨[⟨.num 10, .Spades⟩], [], [kingS, ⟨.num 6, .Spades⟩], 0, false⟩

/-- The round `play_dealer_turn` produces from `wRound`: the dealer drew
the 10 (26, a bust, so at least 17) and the cards are revealed. -/
def wRoundAfter : RoundState :=
  ⟨[], [], [kingS, ⟨.num 6, .Spades⟩, ⟨.num 10, .Spades⟩], 0, true⟩

/-- Witness for C3 on `wRound`. -/
theorem C3_witness :
    wRoundAfter.show_dealer_cards = true ∧
    wRoundAfter.dealer_hand.length + wRoundAfter.shoe.length =
      wRound.dealer_hand.length + wRound.shoe.length ∧
    wRoundAfter.dealer_hand.length ≤
      wRound.dealer_hand.length + wRound.shoe.length ∧
    ¬ calculate_hand_value wRoundAfter.dealer_hand < 17 :=
  (C3_dealer_turn wRound).1 wRoundAfter rfl

/-- C4: for every shoe and positive `n`, `deal` removes and returns
exactly the first `n` cards in their current order when the shoe holds
at least `n`, and fails with `Exhausted` — never returning fewer cards —
when `n` exceeds the remaining count; `hit` deals one card on a
non-empty shoe and propagates the `Exhausted` failure on an empty
one. -/
theorem C4_deal_contract :
    ∀ (n : Nat) (shoe hand : List Card), 0 < n →
      (n ≤ shoe.length → Shoe.deal n shoe = .ok (shoe.take n, shoe.drop n)) ∧
      (shoe.length < n → Shoe.deal n shoe = .error .Exhausted) ∧
      (shoe = [] → hit shoe hand = .error .Exhausted) ∧
      (shoe ≠ [] → hit shoe hand = .ok (shoe.drop 1, hand ++ shoe.take 1)) := by
  intro n shoe hand _
  refine ⟨deal_of_le n shoe, deal_of_gt n shoe, ?_, ?_⟩
  · rintro rfl
    rfl
  · intro hne
    have hl : 1 ≤ shoe.length := List.length_pos.mpr hne
    simp [hit, deal_of_le 1 shoe hl]

/-- Witness for C4: dealing one card from a one-card shoe returns that
card and empties the shoe; asking for two instead fails with
`Exhausted`, as does `hit` on an empty shoe; `hit` on the one-card shoe
appends the card to the hand. -/
theorem C4_witness :
    Shoe.deal 1 [aceS] = .ok ([aceS], []) ∧
    Shoe.deal 2 [aceS] = .error .Exhausted ∧
    hit [] [kingS] = .error .Exhausted ∧
    hit [aceS] [kingS] = .ok ([], [kingS, aceS]) :=
  ⟨(C4_deal_contract 1 [aceS] [] (by decide)).1 (by decide),
   (C4_deal_contract 2 [aceS] [] (by decide)).2.1 (by decide),
   (C4_deal_contract 1 [] [kingS] (by decide)).2.2.1 rfl,
   (C4_deal_contract 1 [aceS] [kingS] (by decide)).2.2.2 (by decide)⟩

/-- The unshuffled shoe holds `52 * num_decks` cards. -/
theorem buildShoe_length : ∀ d : Nat, (buildShoe d).length = 52 * d := by
  intro d
  induction d with
  | zero => rfl
  | succ d ih =>
    simp only [buildShoe, List.replicate_succ, List.flatten_cons,
      List.length_append] at ih ⊢
    rw [ih]
    have hfd : fullDeck.length = 52 := rfl
    omega

/-- A sequence of deals against the Shoe contract, threading the
remaining shoe through; used to speak about dealing `k` cards in total
over any number of calls. -/
def dealSeq : List Nat → List Card → Except GameError (List Card)
  | [], shoe => .ok shoe
  | n :: rest, shoe =>
    match Shoe.deal n shoe with
    | .ok (_, shoe') => dealSeq rest shoe'
    | .error e => .error e

theorem dealSeq_length :
    ∀ (ns : List Nat) (shoe shoe' : List Card),
      dealSeq ns shoe = .ok shoe' →
      shoe'.length = shoe.length - ns.sum ∧ ns.sum ≤ shoe.length := by
  intro ns
  induction ns with
  | nil =>
    intro shoe shoe' h
    simp only [dealSeq, Except.ok.injEq] at h
    subst h
    simp
  | cons n rest ih =>
    intro shoe shoe' h
    simp only [dealSeq] at h
    by_cases hn : n ≤ shoe.length
    · rw [deal_of_le n shoe hn] at h
      obtain ⟨h1, h2⟩ := ih (shoe.drop n) shoe' h
      rw [List.length_drop] at h1 h2
      simp only [List.sum_cons]
      omega
    · rw [deal_of_gt n shoe (by omega)] at h
      exact absurd h (by simp)

/-- C8: a shoe freshly built from `d` decks (any permutation of the
unshuffled `d`-deck pile) holds exactly `52 * d` cards, after any
sequence of successful deals totalling `k` cards it holds `52 * d - k`,
and the count never grows. -/
theorem C8_shoe_count :
    ∀ (d : Nat) (shoe : List Card) (ns : List Nat) (shoe' : List Card),
      shoe.Perm (buildShoe d) →
      dealSeq ns shoe = .ok shoe' →
      shoe.length = 52 * d ∧
      shoe'.length = 52 * d - ns.sum ∧
      shoe'.length ≤ shoe.length := by
  intro d shoe ns shoe' hperm h
  have hlen : shoe.length = 52 * d := by
    rw [hperm.length_eq, buildShoe_length]
  obtain ⟨h1, h2⟩ := dealSeq_length ns shoe shoe' h
  omega

/-- Witness for C8: a one-deck shoe holds 52 cards and dealing 2 then 3
leaves 47. -/
theorem C8_witness :
    (buildShoe 1).length = 52 * 1 ∧
    (((buildShoe 1).drop 2).drop 3).length = 52 * 1 - [2, 3].sum ∧
    (((buildShoe 1).drop 2).drop 3).length ≤ (buildShoe 1).length :=
  C8_shoe_count 1 (buildShoe 1) [2, 3] (((buildShoe 1).drop 2).drop 3)
    (List.Perm.refl _) rfl

/-- C9 counterexample: constructing the game with `num_decks = 0` (the
only value a `Nat` argument allows below 1) does not fail — `__init__`
performs no argument validation, so the caller receives a game whose
shoe is simply empty. -/
theorem C9_counterexample :
    (0 : Nat) < 1 ∧
    BlackjackGame.initE 0 1 [] = .ok (BlackjackGame.init 0 1 []) ∧
    (BlackjackGame.init 0 1 []).deck = [] :=
  ⟨by decide, rfl, rfl⟩

/-- C9 amended: construction never fails.  For every `num_decks`
(including 0, where the claim demanded an `InvalidArgument` failure) it
succeeds, and a shoe built as a permutation of the unshuffled pile
holds `52 * num_decks` cards — empty when `num_decks = 0`. -/
theorem C9_amended_no_validation :
    ∀ (d p : Nat) (deck : List Card), deck.Perm (buildShoe d) →
      BlackjackGame.initE d p deck = .ok (BlackjackGame.init d p deck) ∧
      (BlackjackGame.init d p deck).deck.length = 52 * d := by
  intro d p deck hperm
  refine ⟨rfl, ?_⟩
  show deck.length = 52 * d
  rw [hperm.length_eq, buildShoe_length]

/-- Witness for C9 at `num_decks = 0`: construction succeeds with an
empty shoe. -/
theorem C9_witness :
    BlackjackGame.initE 0 3 [] = .ok (BlackjackGame.init 0 3 []) ∧
    (BlackjackGame.init 0 3 []).deck.length = 52 * 0 :=
  C9_amended_no_validation 0 3 [] (List.Perm.refl _)
